import Mathlib

/-!
Verification of the waPC host runtime (wapc-go): a shallow embedding of the
invocation-context state machine, the waPC host ABI functions, the minimal
WASI shim, and the instance pool, together with theorems settling the
specification claims.

Conventions of the embedding:
* Linear memory is a `List Nat` of byte values; a Go slice expression
  `data[a:b]` that is out of range aborts the call, which we model with
  `Except String`.
* Go byte strings (`[]byte` and `string` used as raw bytes) are `List Nat`;
  the Go `nil`-vs-present distinction on `hostResp`/`hostErr` is `Option`.
* Host handlers are modelled as pure functions returning the pair
  `([]byte, error)` that a Go `HostCallHandler` returns.
-/

namespace Wapc

/-- Raw bytes (`[]byte` in Go). -/
abbrev Bytes := List Nat

/-- The bytes of a Go string.  The specification only ever exercises ASCII
operation names, for which the code points are the UTF-8 bytes, so we map
each character to its code point. -/
def strBytes (s : String) : Bytes :=
  s.data.map (fun c => c.toNat)

/-- The per-call invocation context (`invokeContext` in
`engines/wazero/wazero.go`, `functionContext` in `module.go`). `guestErr`
is the UTF-8 bytes of the error string; empty iff no error was signalled.
`hostResp`/`hostErr` are `Option` because the Go code distinguishes `nil`
from present values. -/
structure InvCtx where
  operation : String
  guestReq : Bytes
  guestResp : Bytes
  guestErr : Bytes
  hostResp : Option Bytes
  hostErr : Option Bytes
  deriving Repr, DecidableEq

/-- The context a fresh `Invoke` builds before entering `__guest_call`
(`invokeContext{operation: operation, guestReq: payload}`). -/
def freshCtx (operation : String) (payload : Bytes) : InvCtx :=
  { operation := operation
    guestReq := payload
    guestResp := []
    guestErr := []
    hostResp := none
    hostErr := none }

/-- Errors surfaced at the `Invoke` boundary. -/
inductive WapcError where
  | guestError (msg : Bytes)
  | guestUnsuccessful (operation : String)
  | guestTrap (detail : String)
  | instanceClosed
  deriving Repr, DecidableEq

/-! ### Linear memory -/

/-- `mem.Read(off, len)`: defined iff the whole range lies inside the
current memory. -/
def memRead (mem : Bytes) (off len : Nat) : Option Bytes :=
  if off + len ≤ mem.length then some ((mem.drop off).take len) else none

/-- `mem.Write(off, src)`: succeeds iff the whole range fits; on success the
bytes at `[off, off+|src|)` are replaced. -/
def memWrite (mem : Bytes) (off : Nat) (src : Bytes) : Option Bytes :=
  if off + src.length ≤ mem.length then
    some (mem.take off ++ src ++ mem.drop (off + src.length))
  else
    none

/-- A `Memory.Write` whose boolean result the caller ignores (as the wazero
adapter does in `guestRequest`, `hostResponse` and `hostError`): on an
out-of-range write the memory is left unchanged and no error is reported. -/
def memWriteDrop (mem : Bytes) (off : Nat) (src : Bytes) : Bytes :=
  (memWrite mem off src).getD mem

/-- `requireRead` (`engines/wazero/wazero.go`): reads `byteCount` bytes at
`offset`, aborting the invocation (Go `panic`, surfacing as a trap of the
guest call) when the range is out of bounds. -/
def requireRead (mem : Bytes) (fieldName : String) (off len : Nat) :
    Except String Bytes :=
  match memRead mem off len with
  | some bs => .ok bs
  | none => .error ("out of range reading " ++ fieldName)

/-! ### Invoke result processing (claim C1)

Two post-processing orders exist in the source.  All four engine adapters
(`engines/wazero/wazero.go` Invoke, `engines/wasmtime/wasmtime.go` Invoke,
the wasmer adapter, and the first wazero adapter) check `guestErr` before
the return value once `__guest_call` returned without trap.  The legacy
top-level `module.go` Invoke (both historical versions) checks `guestErr`
only when the engine call itself failed, and on a trap-free return decides
purely from the return value. -/

/-- Outcome of the engine-level `__guest_call`: `.error` is a trap,
`.ok r` is a trap-free return of the i32 value `r`. -/
abbrev CallOutcome := Except String Int

/-- Post-processing of `Instance.Invoke` in `engines/wazero/wazero.go`
(and identically in the wasmtime and wasmer adapters): trap check, then
`guestErr`, then the return value. -/
def wazeroInvokeResult (call : CallOutcome) (guestErr : Bytes)
    (guestResp : Bytes) (operation : String) : Except WapcError Bytes :=
  match call with
  | .error e => .error (.guestTrap e)
  | .ok ret =>
    if guestErr ≠ [] then .error (.guestError guestErr)
    else if ret = 1 then .ok guestResp
    else .error (.guestUnsuccessful operation)

/-- Post-processing of `Instance.Invoke` in the legacy top-level
`module.go`: `guestErr` is consulted only inside the `err != nil` branch;
a trap-free return is decided purely from the i32 return value. -/
def legacyModuleInvokeResult (call : CallOutcome) (guestErr : Bytes)
    (guestResp : Bytes) (operation : String) : Except WapcError Bytes :=
  match call with
  | .error e =>
    if guestErr ≠ [] then .error (.guestError guestErr)
    else .error (.guestTrap e)
  | .ok ret =>
    if ret = 1 then .ok guestResp
    else .error (.guestUnsuccessful operation)

/-! ### Guest behaviour and the closed-instance check (claim C3) -/

/-- The net effect of one `__guest_call` on the invocation context: the
engine-call outcome together with the final context the host imports left
behind. -/
abbrev GuestBehavior := InvCtx → CallOutcome × InvCtx

/-- `Instance.Invoke` of the engine adapters: the atomically read `closed`
flag rejects the call before anything else; otherwise a fresh context is
installed, `__guest_call` runs, and the result is post-processed with the
error-first order. -/
def modernInvoke (closed : Bool) (guest : GuestBehavior) (operation : String)
    (payload : Bytes) : Except WapcError Bytes :=
  if closed then .error .instanceClosed
  else
    let r := guest (freshCtx operation payload)
    wazeroInvokeResult r.1 r.2.guestErr r.2.guestResp operation

/-- `Instance.Invoke` of the legacy top-level `module.go`: there is no
`closed` field and no check, so the guest is entered unconditionally even
after `Close` has run. -/
def legacyInvoke (guest : GuestBehavior) (operation : String)
    (payload : Bytes) : Except WapcError Bytes :=
  let r := guest (freshCtx operation payload)
  legacyModuleInvokeResult r.1 r.2.guestErr r.2.guestResp operation

/-- A guest that immediately returns 1 without touching the context. -/
def trivialGuest : GuestBehavior := fun ic => (.ok 1, ic)

/-! ### The host import `__host_call` (claim C2)

`wapcHost.hostCall` in `engines/wazero/wazero.go` (identically in the
wasmtime/wasmer adapters and the legacy `module.go`): with no configured
handler it returns 0 at once, before touching memory or the context;
otherwise it reads the four argument ranges (aborting on an out-of-range
read), assigns both `hostResp` and `hostErr` from the handler result, and
returns 0 exactly when the handler returned an error. -/

/-- A user host-call handler: `(binding, namespace, operation, payload)`
to the Go pair `([]byte, error)`. -/
abbrev HostHandler := Bytes → Bytes → Bytes → Bytes → Option Bytes × Option Bytes

/-- The `__host_call` host function. The `Except` layer is the Go panic
raised by `requireRead` on an out-of-range argument, which surfaces as a
trap of the invocation. -/
def hostCall (handler : Option HostHandler) (ic : InvCtx) (mem : Bytes)
    (bPtr bLen nsPtr nsLen opPtr opLen pPtr pLen : Nat) :
    Except String (InvCtx × Int) :=
  match handler with
  | none => .ok (ic, 0)
  | some h => do
    let binding ← requireRead mem "binding" bPtr bLen
    let ns ← requireRead mem "namespace" nsPtr nsLen
    let op ← requireRead mem "operation" opPtr opLen
    let payload ← requireRead mem "payload" pPtr pLen
    let r := h binding ns op payload
    let ic2 := { ic with hostResp := r.1, hostErr := r.2 }
    match r.2 with
    | some _ => .ok (ic2, 0)
    | none => .ok (ic2, 1)

/-- `__host_error_len`: 0 when no host error is stored, else the length of
its message. -/
def hostErrorLen (ic : InvCtx) : Nat :=
  match ic.hostErr with
  | none => 0
  | some e => e.length

/-! ### `__guest_response`, `__guest_error` and `__guest_request`
(claims C4 and C5) -/

/-- The host import `__guest_response`: reads `len` bytes at `ptr`
(aborting when out of range) and stores them, as a value, into
`guestResp`.  The legacy `module.go` and the wasmer/wasmtime adapters copy
into a freshly allocated buffer (`buf := make([]byte, len); copy(...)`), so
the stored response is the byte values at call time. -/
def guestResponse (ic : InvCtx) (mem : Bytes) (ptr len : Nat) :
    Except String InvCtx :=
  (requireRead mem "guestResp" ptr len).map
    (fun bs => { ic with guestResp := bs })

/-- The host import `__guest_error`: like `__guest_response` but stores
into `guestErr`. -/
def guestError (ic : InvCtx) (mem : Bytes) (ptr len : Nat) :
    Except String InvCtx :=
  (requireRead mem "guestErr" ptr len).map
    (fun bs => { ic with guestErr := bs })

/-- The host import `__guest_request` as the wazero adapter implements it:
the operation bytes and the request payload are pushed into linear memory
with `Memory.Write`, whose boolean failure result is discarded, so a write
that does not fit is silently dropped and the import always returns
normally. -/
def guestRequest (ic : InvCtx) (mem : Bytes) (opPtr ptr : Nat) : Bytes :=
  let m1 := if ic.operation ≠ "" then memWriteDrop mem opPtr (strBytes ic.operation) else mem
  if ic.guestReq ≠ [] then memWriteDrop m1 ptr ic.guestReq else m1

/-- The host import `__host_response` as the wazero adapter implements it:
when a host response is present it is pushed with `Memory.Write`, whose
failure result is discarded. -/
def hostResponse (ic : InvCtx) (mem : Bytes) (ptr : Nat) : Bytes :=
  match ic.hostResp with
  | none => mem
  | some resp => memWriteDrop mem ptr resp

/-- The host import `__host_error` as the wazero adapter implements it:
when a host error is present its message bytes are pushed with
`Memory.Write`, whose failure result is discarded. -/
def hostError (ic : InvCtx) (mem : Bytes) (ptr : Nat) : Bytes :=
  match ic.hostErr with
  | none => mem
  | some e => memWriteDrop mem ptr e

/-- The host import `__console_log` (wazero adapter): with a configured
logger the message is read with `requireRead` (aborting the call when the
range is out of bounds) and handed to the logger — the result is the
logged bytes; with no logger the import does nothing, not even the read. -/
def consoleLog (loggerConfigured : Bool) (mem : Bytes) (ptr len : Nat) :
    Except String (Option Bytes) :=
  if loggerConfigured then (requireRead mem "msg" ptr len).map some
  else .ok none

/-- Go `copy(data[ptr:], src)` as the wasmer/wasmtime/legacy
write-direction imports use it: taking the slice `data[ptr:]` aborts (Go
panic) when `ptr` exceeds the memory size; otherwise `copy` writes
`min(|src|, size - ptr)` bytes at `ptr`, silently truncating a source that
does not fit. -/
def goCopy (mem : Bytes) (ptr : Nat) (src : Bytes) : Option Bytes :=
  if ptr ≤ mem.length then
    some (mem.take ptr ++ src.take (mem.length - ptr) ++ mem.drop (ptr + src.length))
  else
    none

/-- The host import `__guest_request` as the wasmer adapter (and the
wasmtime adapter and the legacy `module.go`) implements it:
`copy(data[operationPtr:], operation)` then `copy(data[payloadPtr:],
guestReq)`, unconditionally; `none` is the Go panic raised when a pointer
lies past the end of memory. -/
def wasmerGuestRequest (ic : InvCtx) (mem : Bytes) (opPtr ptr : Nat) :
    Option Bytes := do
  let m1 ← goCopy mem opPtr (strBytes ic.operation)
  goCopy m1 ptr ic.guestReq

/-- The tail of an `Invoke` whose guest called `__guest_response` at
`(ptr, len)` on memory `mem0`, then performed further linear-memory writes,
then returned 1: `Invoke` answers from the stored `guestResp`, not from the
final memory. -/
def invokeReturnAfter (mem0 : Bytes) (ptr len : Nat)
    (writes : List (Nat × Bytes)) : Except String Bytes := do
  let ic ← guestResponse (freshCtx "" []) mem0 ptr len
  let _memFinal := writes.foldl (fun m w => memWriteDrop m w.1 w.2) mem0
  pure ic.guestResp

/-! ### The instantiation init loop (claim C7)

`Module.Instantiate` (wasmtime adapter lines 185-198, wasmer adapter lines
216-229, legacy `module.go`): for each name in `["_start", "wapc_init"]`,
in that order, the export is looked up; a present export is called exactly
once; a failure aborts `Instantiate` with an initialization error. -/

/-- The exports of a guest module relevant to initialization: `none` when
the function is not exported, otherwise the outcome of calling it. -/
abbrev InitExports := String → Option (Except String Unit)

/-- Runs the init functions named in `names` in order, recording the trace
of invoked names; stops with an error when one fails. -/
def runInitFunctions (exports : InitExports) : List String → Except String (List String)
  | [] => .ok []
  | n :: rest =>
    match exports n with
    | none => runInitFunctions exports rest
    | some (.ok _) => (runInitFunctions exports rest).map (fun t => n :: t)
    | some (.error e) => .error ("could not initialize instance: " ++ e)

/-- The init phase of `Module.Instantiate`. -/
def instantiateInits (exports : InitExports) : Except String (List String) :=
  runInitFunctions exports ["_start", "wapc_init"]

/-! ### The pool (claims C6 and C10)

`pool.go`: a `Pool` wraps a bounded ring buffer of capacity `size`.
`NewPool` instantiates `size` instances, offering each to the buffer; on
any instantiation failure it returns the error at once.  `Return` offers
an arbitrary instance back, with no provenance, membership, openness or
duplication check. -/

/-- What `NewPool` did: the result (the ring-buffer contents as instance
indices, or the error), which instances it created, and which it closed
along the way. -/
structure NewPoolOutcome where
  result : Except String (List Nat)
  created : List Nat
  closedDuring : List Nat
  deriving Repr

/-- The `NewPool` loop (`pool.go` lines 21-46 and 111-146): iteration `i`
instantiates instance `i` and offers it to the ring buffer.  On an
instantiation error the code does `return nil, err` without closing
anything. -/
def newPoolLoop (outcome : Nat → Except String Unit) (cap : Nat) :
    Nat → Nat → List Nat → NewPoolOutcome
  | 0, _, acc => ⟨.ok acc, acc, []⟩
  | n + 1, i, acc =>
    match outcome i with
    | .error e => ⟨.error e, acc, []⟩
    | .ok _ =>
      if acc.length < cap then newPoolLoop outcome cap n (i + 1) (acc ++ [i])
      else ⟨.error "could not add module to module pool", acc, []⟩

/-- `NewPool(module, size)` with `outcome i` the result of the `i`-th
`module.Instantiate()`. -/
def newPool (outcome : Nat → Except String Unit) (size : Nat) : NewPoolOutcome :=
  newPoolLoop outcome size size 0 []

/-- `Pool.Return` (`pool.go` lines 66-77 and 166-177): `rb.Offer(inst)`
appends to the FIFO whenever a slot is free, accepting any instance value
whatsoever; a full FIFO is the only failure. -/
def poolReturn (cap : Nat) (fifo : List Nat) (inst : Nat) :
    Except String (List Nat) :=
  if fifo.length < cap then .ok (fifo ++ [inst])
  else .error "cannot return instance to full pool"

/-! ### The WASI shim (claims C8 and C9)

The functions of `Instance.wasiRuntime` in the wasmer adapter, and
`functionContext.fdWrite` of the legacy `module.go`. -/

/-- The u32 value encoded little-endian by the four bytes at `off`. -/
def u32At (mem : Bytes) (off : Nat) : Nat :=
  mem.getD off 0 + 256 * mem.getD (off + 1) 0 +
    65536 * mem.getD (off + 2) 0 + 16777216 * mem.getD (off + 3) 0

/-- Little-endian u32 at `off` (`binary.LittleEndian.Uint32`); `none` when
fewer than 4 bytes remain (a Go panic). -/
def readU32LE (mem : Bytes) (off : Nat) : Option Nat :=
  if off + 4 ≤ mem.length then some (u32At mem off) else none

/-- The little-endian 4-byte encoding of `v % 2^32`
(`binary.LittleEndian.PutUint32`). -/
def u32le (v : Nat) : Bytes :=
  [v % 256, v / 256 % 256, v / 65536 % 256, v / 16777216 % 256]

/-- The little-endian 8-byte encoding of `v % 2^64`
(`binary.LittleEndian.PutUint64`). -/
def u64le (v : Nat) : Bytes :=
  [v % 256, v / 256 % 256, v / 65536 % 256, v / 16777216 % 256,
   v / 4294967296 % 256, v / 1099511627776 % 256,
   v / 281474976710656 % 256, v / 72057594037927936 % 256]

/-- Turns an `Option` into a Go panic with the given message. -/
def expectSome (o : Option α) (msg : String) : Except String α :=
  match o with
  | some a => .ok a
  | none => .error msg

/-- The iovec loop of `fd_write`: iteration `k` reads the pair
`(base, len)` little-endian at `iovsPtr + 8k`, passes the `len` bytes at
`base` to the writer, and accumulates `len` into the 32-bit running total.
Returns the writer payloads in order and the final total. -/
def fdWriteLoop (mem : Bytes) : Nat → Nat → Except String (List Bytes × Nat)
  | _, 0 => .ok ([], 0)
  | off, n + 1 => do
    let base ← expectSome (readU32LE mem off) "slice bounds out of range"
    let length ← expectSome (readU32LE mem (off + 4)) "slice bounds out of range"
    let chunk ← expectSome (memRead mem base length) "slice bounds out of range"
    let r ← fdWriteLoop mem (off + 8) n
    .ok (chunk :: r.1, (length + r.2) % 4294967296)

/-- `fd_write(fd, iovsPtr, iovsLen, writtenPtr)`: result is the final
memory, the writer payloads in order, and the returned total.  When
`fd ≠ 1` or no writer is configured it returns 0 at once, before touching
memory. -/
def fdWrite (writerConfigured : Bool) (mem : Bytes) (fd : Int)
    (iovsPtr iovsLen writtenPtr : Nat) :
    Except String (Bytes × List Bytes × Nat) :=
  if fd ≠ 1 then .ok (mem, [], 0)
  else if ¬ writerConfigured then .ok (mem, [], 0)
  else if mem.length < iovsPtr then .error "slice bounds out of range"
  else do
    let r ← fdWriteLoop mem iovsPtr iovsLen
    let mem2 ← expectSome (memWrite mem writtenPtr (u32le r.2))
      "slice bounds out of range"
    .ok (mem2, r.1, r.2)

/-- `fd_close` stub: errno 8, memory untouched. -/
def wasiFdClose (mem : Bytes) (fd : Nat) : Bytes × Nat := (mem, 8)

/-- `fd_fdstat_get` stub: errno 8, memory untouched. -/
def wasiFdFdstatGet (mem : Bytes) (fd statPtr : Nat) : Bytes × Nat := (mem, 8)

/-- `fd_prestat_get` stub: errno 8, memory untouched. -/
def wasiFdPrestatGet (mem : Bytes) (fd prestatPtr : Nat) : Bytes × Nat := (mem, 8)

/-- `fd_prestat_dir_name` stub: errno 8, memory untouched. -/
def wasiFdPrestatDirName (mem : Bytes) (fd pathPtr pathLen : Nat) : Bytes × Nat :=
  (mem, 8)

/-- `fd_read` stub: errno 8, memory untouched. -/
def wasiFdRead (mem : Bytes) (fd iovsPtr iovsLen nreadPtr : Nat) : Bytes × Nat :=
  (mem, 8)

/-- `fd_seek` stub: errno 8, memory untouched. -/
def wasiFdSeek (mem : Bytes) (fd : Nat) (offset : Int) (whence resPtr : Nat) :
    Bytes × Nat := (mem, 8)

/-- `path_open` stub: errno 28, memory untouched. -/
def wasiPathOpen (mem : Bytes) (args : List Nat) : Bytes × Nat := (mem, 28)

/-- `args_sizes_get`: writes a little-endian u32 zero at each of the two
given locations and returns 0; an out-of-range write is a Go panic. -/
def wasiArgsSizesGet (mem : Bytes) (argc argvBufSize : Nat) :
    Except String (Bytes × Nat) := do
  let m1 ← expectSome (memWrite mem argc (u32le 0)) "slice bounds out of range"
  let m2 ← expectSome (memWrite m1 argvBufSize (u32le 0)) "slice bounds out of range"
  .ok (m2, 0)

/-- `args_get`: returns 0 without writing to memory. -/
def wasiArgsGet (mem : Bytes) (argv argvBuf : Nat) : Bytes × Nat := (mem, 0)

/-- `environ_sizes_get`: returns 0 without writing to memory. -/
def wasiEnvironSizesGet (mem : Bytes) (envc envBufSize : Nat) : Bytes × Nat :=
  (mem, 0)

/-- `environ_get`: returns 0 without writing to memory. -/
def wasiEnvironGet (mem : Bytes) (environ envBuf : Nat) : Bytes × Nat := (mem, 0)

/-- `clock_time_get`: writes the current wall clock, in nanoseconds since
the epoch, as a little-endian u64 at `tsPtr` and returns 0.  The clock
value is a parameter of the model. -/
def wasiClockTimeGet (nowNanos : Nat) (mem : Bytes)
    (clockId precision tsPtr : Nat) : Except String (Bytes × Nat) := do
  let m ← expectSome (memWrite mem tsPtr (u64le nowNanos)) "slice bounds out of range"
  .ok (m, 0)

/-- The base of the `k`-th iovec pair at `iovsPtr`. -/
def iovBase (mem : Bytes) (iovsPtr k : Nat) : Nat :=
  u32At mem (iovsPtr + 8 * k)

/-- The length of the `k`-th iovec pair at `iovsPtr`. -/
def iovLen (mem : Bytes) (iovsPtr k : Nat) : Nat :=
  u32At mem (iovsPtr + 8 * k + 4)

/-- The byte payloads `fd_write` hands to the writer, pair by pair. -/
def iovChunks (mem : Bytes) (iovsPtr n : Nat) : List Bytes :=
  (List.range n).map (fun k => (mem.drop (iovBase mem iovsPtr k)).take (iovLen mem iovsPtr k))

/-- The 32-bit total of the iovec lengths. -/
def iovTotal (mem : Bytes) (iovsPtr n : Nat) : Nat :=
  ((List.range n).map (fun k => iovLen mem iovsPtr k)).sum % 4294967296

/-! ## Theorems settling the claims -/

theorem memWriteDrop_of_oob (mem : Bytes) (off : Nat) (src : Bytes)
    (h : mem.length < off + src.length) : memWriteDrop mem off src = mem := by
  unfold memWriteDrop memWrite
  rw [if_neg (by omega)]
  rfl

theorem memWrite_of_inbounds (mem : Bytes) (off : Nat) (src : Bytes)
    (h : off + src.length ≤ mem.length) :
    memWrite mem off src = some (mem.take off ++ src ++ mem.drop (off + src.length)) := by
  unfold memWrite
  rw [if_pos h]

theorem requireRead_of_oob (mem : Bytes) (name : String) (off len : Nat)
    (h : mem.length < off + len) :
    requireRead mem name off len = .error ("out of range reading " ++ name) := by
  unfold requireRead memRead
  rw [if_neg (by omega)]

theorem requireRead_of_inbounds (mem : Bytes) (name : String) (off len : Nat)
    (h : off + len ≤ mem.length) :
    requireRead mem name off len = .ok ((mem.drop off).take len) := by
  unfold requireRead memRead
  rw [if_pos h]

theorem readU32LE_of_inbounds (mem : Bytes) (off : Nat) (h : off + 4 ≤ mem.length) :
    readU32LE mem off = some (u32At mem off) := by
  unfold readU32LE
  rw [if_pos h]

theorem goCopy_of_ptr_le (mem : Bytes) (ptr : Nat) (src : Bytes)
    (h : ptr ≤ mem.length) :
    goCopy mem ptr src =
      some (mem.take ptr ++ src.take (mem.length - ptr) ++ mem.drop (ptr + src.length)) := by
  unfold goCopy
  rw [if_pos h]

theorem goCopy_of_ptr_gt (mem : Bytes) (ptr : Nat) (src : Bytes)
    (h : mem.length < ptr) : goCopy mem ptr src = none := by
  unfold goCopy
  rw [if_neg (by omega)]

theorem goCopy_result_length (mem : Bytes) (ptr : Nat) (src : Bytes)
    (h : ptr ≤ mem.length) :
    (mem.take ptr ++ src.take (mem.length - ptr) ++ mem.drop (ptr + src.length)).length =
      mem.length := by
  simp only [List.length_append, List.length_take, List.length_drop]
  omega

theorem memRead_of_inbounds (mem : Bytes) (off len : Nat) (h : off + len ≤ mem.length) :
    memRead mem off len = some ((mem.drop off).take len) := by
  unfold memRead
  rw [if_pos h]

/-- Claim C1 (evaluation at the failing input).  The claim says every
`Instance.Invoke` whose `__guest_call` returns without trap reports a
non-empty `guest_err` as a `GuestError`, even when the return value is 1.
The engine adapters do exactly that, but the legacy top-level `module.go`
`Invoke` consults `guestErr` only when the engine call failed: with
`guest_err = "boom"` (bytes `[98,111,111,109]`) and a trap-free return of
1 it reports success with `guest_resp`, where the wazero adapter reports
`GuestError`. -/
theorem C1_legacy_invoke_ignores_guest_error :
    legacyModuleInvokeResult (.ok 1) [98, 111, 111, 109] [1, 2, 3] "echo" =
      .ok [1, 2, 3] ∧
    wazeroInvokeResult (.ok 1) [98, 111, 111, 109] [1, 2, 3] "echo" =
      .error (.guestError [98, 111, 111, 109]) := by
  exact ⟨rfl, rfl⟩

/-- Claim C2 (counterexample).  The claim says that when no host-call
handler is configured, `__host_call` stores an error into `host_err` (so
`__host_error_len` becomes non-zero) and returns 0, and that `__host_call`
never traps.  In the code a nil handler makes `__host_call` return 0 at
once with the invocation context untouched, so `__host_error_len` still
reports 0; and an out-of-range argument read makes `requireRead` abort the
call (a trap). -/
theorem C2_counterexample_nil_handler_and_oob :
    hostCall none (freshCtx "echo" [1]) [0, 0, 0, 0] 0 1 0 1 0 1 0 1 =
      .ok (freshCtx "echo" [1], 0) ∧
    hostErrorLen (freshCtx "echo" [1]) = 0 ∧
    hostCall (some (fun _ _ _ _ => (some [], none))) (freshCtx "echo" [1])
      [0, 0] 0 4 0 0 0 0 0 0 = .error "out of range reading binding" := by
  refine ⟨rfl, rfl, ?_⟩
  rfl

/-- Claim C2 (amended).  `__host_call` with a nil handler returns 0 without
touching the invocation context (so `__host_error_len` still reports the
prior state; 0 for a fresh context); with a configured handler and in-range
arguments it stores the handler results into `host_resp`/`host_err` and
returns 1 on handler success and 0 on handler error; it traps only on an
out-of-range argument read. -/
theorem C2_host_call_amended (h : HostHandler) (ic : InvCtx) (mem : Bytes)
    (bPtr bLen nsPtr nsLen opPtr opLen pPtr pLen : Nat)
    (operation : String) (payload : Bytes)
    (hb : bPtr + bLen ≤ mem.length) (hn : nsPtr + nsLen ≤ mem.length)
    (ho : opPtr + opLen ≤ mem.length) (hp : pPtr + pLen ≤ mem.length) :
    hostCall none ic mem bPtr bLen nsPtr nsLen opPtr opLen pPtr pLen =
      .ok (ic, 0) ∧
    hostErrorLen (freshCtx operation payload) = 0 ∧
    (∀ resp,
      h ((mem.drop bPtr).take bLen) ((mem.drop nsPtr).take nsLen)
          ((mem.drop opPtr).take opLen) ((mem.drop pPtr).take pLen) =
        (resp, none) →
      hostCall (some h) ic mem bPtr bLen nsPtr nsLen opPtr opLen pPtr pLen =
        .ok ({ ic with hostResp := resp, hostErr := none }, 1)) ∧
    (∀ resp e,
      h ((mem.drop bPtr).take bLen) ((mem.drop nsPtr).take nsLen)
          ((mem.drop opPtr).take opLen) ((mem.drop pPtr).take pLen) =
        (resp, some e) →
      hostCall (some h) ic mem bPtr bLen nsPtr nsLen opPtr opLen pPtr pLen =
        .ok ({ ic with hostResp := resp, hostErr := some e }, 0)) := by
  refine ⟨rfl, rfl, ?_, ?_⟩
  · intro resp hh
    simp only [hostCall, requireRead_of_inbounds _ _ _ _ hb,
      requireRead_of_inbounds _ _ _ _ hn, requireRead_of_inbounds _ _ _ _ ho,
      requireRead_of_inbounds _ _ _ _ hp, bind, Except.bind, hh]
  · intro resp e hh
    simp only [hostCall, requireRead_of_inbounds _ _ _ _ hb,
      requireRead_of_inbounds _ _ _ _ hn, requireRead_of_inbounds _ _ _ _ ho,
      requireRead_of_inbounds _ _ _ _ hp, bind, Except.bind, hh]

/-- Witness for `C2_host_call_amended` at a concrete handler, context, and
memory. -/
theorem C2_host_call_amended_witness :
    hostCall (some (fun _ _ _ _ => (some [9], none))) (freshCtx "x" [])
      [1, 2, 3, 4] 0 1 1 1 2 1 3 1 =
      .ok ({ freshCtx "x" [] with hostResp := some [9], hostErr := none }, 1) ∧
    hostCall (some (fun _ _ _ _ => (none, some [101]))) (freshCtx "x" [])
      [1, 2, 3, 4] 0 1 1 1 2 1 3 1 =
      .ok ({ freshCtx "x" [] with hostResp := none, hostErr := some [101] }, 0) := by
  constructor
  · exact (C2_host_call_amended (fun _ _ _ _ => (some [9], none))
      (freshCtx "x" []) [1, 2, 3, 4] 0 1 1 1 2 1 3 1 "x" []
      (by decide) (by decide) (by decide) (by decide)).2.2.1 (some [9]) rfl
  · exact (C2_host_call_amended (fun _ _ _ _ => (none, some [101]))
      (freshCtx "x" []) [1, 2, 3, 4] 0 1 1 1 2 1 3 1 "x" []
      (by decide) (by decide) (by decide) (by decide)).2.2.2 none [101] rfl

/-- Claim C3 (evaluation at the failing input).  The engine adapters check
the `closed` flag and reject a closed instance with the `InstanceClosed`
error, but the legacy top-level `module.go` `Instance` has no `closed`
field at all: its `Invoke` enters the guest unconditionally after `Close`,
and with a guest that simply returns 1 the call even reports success —
while the repository's own test (`TestModule`, sub-test "Call Function
with Closed Instance") expects an error. -/
theorem C3_closed_instance_check_missing_in_legacy :
    modernInvoke true trivialGuest "echo" [7] = .error .instanceClosed ∧
    legacyInvoke trivialGuest "echo" [7] = .ok [] := by
  exact ⟨rfl, rfl⟩

/-- Claim C4 (counterexample).  The claim says an out-of-bounds access in
any of the listed host imports fails the invocation and is never silently
truncated or treated as a no-op.  Writing the 2-byte payload `[9, 9]` at
offset 3 of a 4-byte memory is out of range, yet: in the wazero adapter
`__guest_request` discards `Memory.Write`'s failure result, returns
normally, and leaves memory unchanged (a no-op); in the wasmer adapter
(and wasmtime and the legacy `module.go`) the same import's
`copy(data[3:], [9, 9])` returns normally having silently truncated the
write to the single byte that fits. -/
theorem C4_counterexample_oob_write_not_failure :
    guestRequest (freshCtx "" [9, 9]) [0, 0, 0, 0] 0 3 = [0, 0, 0, 0] ∧
    wasmerGuestRequest (freshCtx "" [9, 9]) [0, 0, 0, 0] 0 3 =
      some [0, 0, 0, 9] := by
  exact ⟨rfl, rfl⟩

/-- Claim C4 (amended).  An out-of-bounds *read* while servicing the
imports aborts the invocation with an out-of-range failure: the
`__guest_response` and `__guest_error` buffer reads, each of the four
`__host_call` argument reads, the `__console_log` message read when a
logger is configured (with none, the import does not read at all), and
`fd_write`'s initial iovec-pointer slice.  Out-of-bounds *writes* are not
surfaced as failures: in the wazero adapter the write-direction imports
(`__guest_request`, `__host_response`, `__host_error`) discard
`Memory.Write`'s failure result, leaving memory unchanged and returning
normally; in the wasmer/wasmtime/legacy adapters `__guest_request` uses Go
`copy(data[ptr:], src)`, which with a pointer inside memory returns
normally, silently truncating the write to the bytes that fit (memory
keeps its size), and aborts only when the pointer itself lies past the end
of memory. -/
theorem C4_oob_access_contract (ic : InvCtx) (hh : HostHandler) (mem : Bytes)
    (ptr len bPtr bLen nsPtr nsLen oPtr oLen pPtr pLen : Nat)
    (iovsPtr iovsLen writtenPtr wPtr opPtr gPtr : Nat) (src : Bytes) :
    (mem.length < ptr + len →
      guestResponse ic mem ptr len = .error "out of range reading guestResp" ∧
      guestError ic mem ptr len = .error "out of range reading guestErr" ∧
      consoleLog true mem ptr len = .error "out of range reading msg") ∧
    consoleLog false mem ptr len = .ok none ∧
    (mem.length < bPtr + bLen →
      hostCall (some hh) ic mem bPtr bLen nsPtr nsLen oPtr oLen pPtr pLen =
        .error "out of range reading binding") ∧
    (bPtr + bLen ≤ mem.length → mem.length < nsPtr + nsLen →
      hostCall (some hh) ic mem bPtr bLen nsPtr nsLen oPtr oLen pPtr pLen =
        .error "out of range reading namespace") ∧
    (bPtr + bLen ≤ mem.length → nsPtr + nsLen ≤ mem.length →
      mem.length < oPtr + oLen →
      hostCall (some hh) ic mem bPtr bLen nsPtr nsLen oPtr oLen pPtr pLen =
        .error "out of range reading operation") ∧
    (bPtr + bLen ≤ mem.length → nsPtr + nsLen ≤ mem.length →
      oPtr + oLen ≤ mem.length → mem.length < pPtr + pLen →
      hostCall (some hh) ic mem bPtr bLen nsPtr nsLen oPtr oLen pPtr pLen =
        .error "out of range reading payload") ∧
    (mem.length < iovsPtr →
      fdWrite true mem 1 iovsPtr iovsLen writtenPtr =
        .error "slice bounds out of range") ∧
    (mem.length < wPtr + src.length →
      memWriteDrop mem wPtr src = mem ∧
      hostResponse { ic with hostResp := some src } mem wPtr = mem ∧
      hostError { ic with hostErr := some src } mem wPtr = mem) ∧
    (mem.length < opPtr + (strBytes ic.operation).length →
      mem.length < gPtr + ic.guestReq.length →
      guestRequest ic mem opPtr gPtr = mem) ∧
    (wPtr ≤ mem.length →
      goCopy mem wPtr src =
        some (mem.take wPtr ++ src.take (mem.length - wPtr) ++
          mem.drop (wPtr + src.length))) ∧
    (opPtr ≤ mem.length → gPtr ≤ mem.length →
      ∃ m2, wasmerGuestRequest ic mem opPtr gPtr = some m2 ∧
        m2.length = mem.length) ∧
    (mem.length < opPtr → wasmerGuestRequest ic mem opPtr gPtr = none) := by
  refine ⟨?_, rfl, ?_, ?_, ?_, ?_, ?_, ?_, ?_, ?_, ?_, ?_⟩
  · intro hr
    refine ⟨?_, ?_, ?_⟩
    · simp only [guestResponse, requireRead_of_oob _ _ _ _ hr]
      rfl
    · simp only [guestError, requireRead_of_oob _ _ _ _ hr]
      rfl
    · simp only [consoleLog, if_pos, requireRead_of_oob _ _ _ _ hr]
      rfl
  · intro hb
    simp only [hostCall, requireRead_of_oob _ _ _ _ hb, bind, Except.bind]
    rfl
  · intro hb hn
    simp only [hostCall, requireRead_of_inbounds _ _ _ _ hb,
      requireRead_of_oob _ _ _ _ hn, bind, Except.bind]
    rfl
  · intro hb hn ho
    simp only [hostCall, requireRead_of_inbounds _ _ _ _ hb,
      requireRead_of_inbounds _ _ _ _ hn, requireRead_of_oob _ _ _ _ ho,
      bind, Except.bind]
    rfl
  · intro hb hn ho hp
    simp only [hostCall, requireRead_of_inbounds _ _ _ _ hb,
      requireRead_of_inbounds _ _ _ _ hn, requireRead_of_inbounds _ _ _ _ ho,
      requireRead_of_oob _ _ _ _ hp, bind, Except.bind]
    rfl
  · intro hiov
    unfold fdWrite
    rw [if_neg (by simp), if_neg (by simp), if_pos hiov]
  · intro hw
    refine ⟨memWriteDrop_of_oob _ _ _ hw, ?_, ?_⟩
    · simp only [hostResponse, memWriteDrop_of_oob _ _ _ hw]
    · simp only [hostError, memWriteDrop_of_oob _ _ _ hw]
  · intro hop hpl
    unfold guestRequest
    rw [show (if ic.operation ≠ "" then memWriteDrop mem opPtr (strBytes ic.operation) else mem) = mem by
      by_cases hcase : ic.operation = "" <;>
        simp [hcase, memWriteDrop_of_oob _ _ _ hop]]
    by_cases hcase : ic.guestReq = [] <;>
      simp [hcase, memWriteDrop_of_oob _ _ _ hpl]
  · intro hw
    exact goCopy_of_ptr_le mem wPtr src hw
  · intro hop hg
    have e1 := goCopy_of_ptr_le mem opPtr (strBytes ic.operation) hop
    have l1 := goCopy_result_length mem opPtr (strBytes ic.operation) hop
    have hg1 : gPtr ≤ (mem.take opPtr ++ (strBytes ic.operation).take (mem.length - opPtr) ++
        mem.drop (opPtr + (strBytes ic.operation).length)).length := by
      rw [l1]
      exact hg
    have e2 := goCopy_of_ptr_le _ gPtr ic.guestReq hg1
    have l2 := goCopy_result_length _ gPtr ic.guestReq hg1
    refine ⟨(mem.take opPtr ++ (strBytes ic.operation).take (mem.length - opPtr) ++
        mem.drop (opPtr + (strBytes ic.operation).length)).take gPtr ++
        ic.guestReq.take ((mem.take opPtr ++ (strBytes ic.operation).take (mem.length - opPtr) ++
          mem.drop (opPtr + (strBytes ic.operation).length)).length - gPtr) ++
        (mem.take opPtr ++ (strBytes ic.operation).take (mem.length - opPtr) ++
          mem.drop (opPtr + (strBytes ic.operation).length)).drop (gPtr + ic.guestReq.length),
      ?_, ?_⟩
    · unfold wasmerGuestRequest
      simp only [e1, bind, Option.bind]
      exact e2
    · exact l2.trans l1
  · intro hop
    unfold wasmerGuestRequest
    simp only [goCopy_of_ptr_gt mem opPtr (strBytes ic.operation) hop, bind,
      Option.bind]

/-- Witness for `C4_oob_access_contract` on a 2-byte memory `[5, 6]`: an
out-of-range buffer read aborts, an out-of-range `__host_call` binding
read aborts, the wazero `__guest_request` drops both writes leaving the
memory unchanged, the wasmer `__guest_request` with a pointer past the end
aborts, and with in-range pointers it truncates: copying operation bytes
`[111, 112]` and then payload `[7, 8, 9]` at offset 0 yields `[7, 8]`. -/
theorem C4_oob_access_contract_witness :
    guestResponse (freshCtx "op" [1, 2, 3]) [5, 6] 1 4 =
      .error "out of range reading guestResp" ∧
    hostCall (some (fun _ _ _ _ => (some [], none))) (freshCtx "op" [])
      [5, 6] 0 4 0 0 0 0 0 0 = .error "out of range reading binding" ∧
    guestRequest (freshCtx "op" [1, 2, 3]) [5, 6] 1 0 = [5, 6] ∧
    wasmerGuestRequest (freshCtx "op" [1, 2, 3]) [5, 6] 3 0 = none ∧
    wasmerGuestRequest (freshCtx "op" [7, 8, 9]) [5, 6] 0 0 = some [7, 8] := by
  have h1 := C4_oob_access_contract (freshCtx "op" [1, 2, 3])
    (fun _ _ _ _ => (some [], none)) [5, 6] 1 4 0 4 0 0 0 0 0 0 0 0 0 0 1 0 []
  have h2 := C4_oob_access_contract (freshCtx "op" [1, 2, 3])
    (fun _ _ _ _ => (some [], none)) [5, 6] 1 4 0 4 0 0 0 0 0 0 0 0 0 0 3 0 []
  refine ⟨(h1.1 (by decide)).1, h1.2.2.1 (by decide), ?_, ?_, rfl⟩
  · exact h1.2.2.2.2.2.2.2.2.1 (by decide) (by decide)
  · exact h2.2.2.2.2.2.2.2.2.2.2.2 (by decide)

/-- Claim C5 (confirmed).  `__guest_response` copies the `len` bytes at
`ptr` into a fresh buffer assigned to `guest_resp` (`buf := make([]byte,
len); copy(buf, data[ptr:ptr+len])` in `module.go` and the wasmer and
wasmtime adapters), so linear-memory writes performed after the call and
before `Invoke` returns do not change the bytes `Invoke` returns: the
result is the slice of the memory as it was when `__guest_response` ran,
for every list of subsequent writes. -/
theorem C5_guest_response_copies (mem0 : Bytes) (ptr len : Nat)
    (writes : List (Nat × Bytes)) (h : ptr + len ≤ mem0.length) :
    invokeReturnAfter mem0 ptr len writes = .ok ((mem0.drop ptr).take len) := by
  simp only [invokeReturnAfter, guestResponse, requireRead_of_inbounds _ _ _ _ h]
  rfl

/-- Witness for `C5_guest_response_copies`: the guest stores bytes `[2, 3]`
and then overwrites that very memory region with `[9, 9]`; `Invoke` still
returns `[2, 3]`. -/
theorem C5_guest_response_copies_witness :
    invokeReturnAfter [1, 2, 3, 4] 1 2 [(1, [9, 9])] = .ok [2, 3] := by
  exact C5_guest_response_copies [1, 2, 3, 4] 1 2 [(1, [9, 9])] (by decide)

/-- The `NewPool` loop up to the first failing instantiation: with `k` the
offset of the first failure, the loop has created the `k` instances
`i0, i0+1, …, i0+k-1`, returns the error, and closes nothing. -/
theorem newPoolLoop_fail (f : Nat → Except String Unit) (cap : Nat) :
    ∀ (k n i0 : Nat) (acc : List Nat) (e : String),
      k < n → acc.length + n ≤ cap →
      (∀ t, t < k → f (i0 + t) = .ok ()) → f (i0 + k) = .error e →
      newPoolLoop f cap n i0 acc =
        ⟨.error e, acc ++ List.range' i0 k, []⟩ := by
  intro k
  induction k with
  | zero =>
    intro n i0 acc e hk hcap hok hf
    match n, hk with
    | n + 1, _ =>
      simp only [newPoolLoop]
      rw [show i0 + 0 = i0 from rfl] at hf
      rw [hf]
      simp [List.range']
  | succ k ih =>
    intro n i0 acc e hk hcap hok hf
    match n, hk with
    | n + 1, _ =>
      simp only [newPoolLoop]
      have h0 : f i0 = .ok () := by
        have := hok 0 (by omega)
        rwa [show i0 + 0 = i0 from rfl] at this
      rw [h0]
      have hlen : acc.length < cap := by omega
      rw [if_pos hlen]
      have hrec := ih n (i0 + 1) (acc ++ [i0]) e (by omega)
        (by simp only [List.length_append, List.length_cons, List.length_nil]; omega)
        (fun t ht => by
          have := hok (t + 1) (by omega)
          rwa [show i0 + (t + 1) = i0 + 1 + t by omega] at this)
        (by rwa [show i0 + 1 + k = i0 + (k + 1) by omega])
      rw [hrec]
      have : acc ++ [i0] ++ List.range' (i0 + 1) k = acc ++ List.range' i0 (k + 1) := by
        rw [List.append_assoc]
        congr 1
      rw [this]

/-- Claim C6 (counterexample).  With a module whose first `Instantiate`
succeeds and whose second fails, `NewPool(module, 2)` returns the error,
has created instance 0, and has closed nothing: instance 0 remains open,
contradicting the claim that the already-created instances are closed
before the error is returned. -/
theorem C6_counterexample_no_cleanup_on_failure :
    (newPool (fun i => if i = 0 then .ok () else .error "boom") 2).result =
      .error "boom" ∧
    (newPool (fun i => if i = 0 then .ok () else .error "boom") 2).created = [0] ∧
    (newPool (fun i => if i = 0 then .ok () else .error "boom") 2).closedDuring = [] := by
  exact ⟨rfl, rfl, rfl⟩

/-- Claim C6 (amended).  If `NewPool`'s `i`-th `Instantiate` fails (after
`i` successful ones), `NewPool` returns that error immediately; the `i`
already-created Instances are not closed — `NewPool` performs no cleanup
and the created instances remain open. -/
theorem C6_newpool_fails_without_cleanup (f : Nat → Except String Unit)
    (size i : Nat) (e : String) (hi : i < size) (hf : f i = .error e)
    (hok : ∀ j, j < i → f j = .ok ()) :
    (newPool f size).result = .error e ∧
    (newPool f size).created = List.range i ∧
    (newPool f size).closedDuring = [] := by
  have hloop := newPoolLoop_fail f size i size 0 [] e hi
    (by simp) (fun t ht => by simpa using hok t ht) (by simpa using hf)
  unfold newPool
  rw [hloop]
  refine ⟨rfl, ?_, rfl⟩
  simp [List.range_eq_range']

/-- Witness for `C6_newpool_fails_without_cleanup` with the second of two
instantiations failing. -/
theorem C6_newpool_fails_without_cleanup_witness :
    (newPool (fun i => if i ≤ 2 then .ok () else .error "nope") 5).result =
      .error "nope" ∧
    (newPool (fun i => if i ≤ 2 then .ok () else .error "nope") 5).created =
      [0, 1, 2] ∧
    (newPool (fun i => if i ≤ 2 then .ok () else .error "nope") 5).closedDuring = [] := by
  have h := C6_newpool_fails_without_cleanup
    (fun i => if i ≤ 2 then .ok () else .error "nope") 5 3 "nope"
    (by decide) rfl (by intro j hj; interval_cases j <;> rfl)
  exact ⟨h.1, by rw [h.2.1]; rfl, h.2.2⟩

/-- Claim C7 (confirmed).  `Module.Instantiate` walks the optional init
exports in the fixed order `["_start", "wapc_init"]`: when no present init
function fails, the trace of invoked functions is exactly the present ones
in that order (each invoked exactly once, `_start` first), and the
instance is only produced after the trace completes; when `_start` fails,
or `_start` does not fail and `wapc_init` fails, `Instantiate` returns the
initialization error and no instance. -/
theorem C7_init_functions_once_in_order (exports : InitExports) :
    ((∀ e, exports "_start" ≠ some (.error e)) →
     (∀ e, exports "wapc_init" ≠ some (.error e)) →
      instantiateInits exports =
        .ok (List.filter (fun n => (exports n).isSome) ["_start", "wapc_init"])) ∧
    (∀ e, exports "_start" = some (.error e) →
      instantiateInits exports = .error ("could not initialize instance: " ++ e)) ∧
    (∀ e, (∀ x, exports "_start" ≠ some (.error x)) →
      exports "wapc_init" = some (.error e) →
      instantiateInits exports = .error ("could not initialize instance: " ++ e)) := by
  refine ⟨?_, ?_, ?_⟩
  · intro h1 h2
    rcases hs : exports "_start" with _ | rs
    · rcases hi : exports "wapc_init" with _ | ri
      · simp [instantiateInits, runInitFunctions, hs, hi, Except.map]
      · rcases ri with ri | ri
        · rw [hi] at h2
          exact absurd rfl (h2 ri)
        · simp [instantiateInits, runInitFunctions, hs, hi, Except.map]
    · rcases rs with rs | rs
      · rw [hs] at h1
        exact absurd rfl (h1 rs)
      · rcases hi : exports "wapc_init" with _ | ri
        · simp [instantiateInits, runInitFunctions, hs, hi, Except.map]
        · rcases ri with ri | ri
          · rw [hi] at h2
            exact absurd rfl (h2 ri)
          · simp [instantiateInits, runInitFunctions, hs, hi, Except.map]
  · intro e hs
    simp [instantiateInits, runInitFunctions, hs, Except.map]
  · intro e h1 hi
    rcases hs : exports "_start" with _ | rs
    · simp [instantiateInits, runInitFunctions, hs, hi, Except.map]
    · rcases rs with rs | rs
      · rw [hs] at h1
        exact absurd rfl (h1 rs)
      · simp [instantiateInits, runInitFunctions, hs, hi, Except.map]

/-- Witness for `C7_init_functions_once_in_order`: a guest exporting both
init functions, both succeeding, runs `_start` then `wapc_init` exactly
once; a guest whose `wapc_init` fails aborts instantiation. -/
theorem C7_init_functions_once_in_order_witness :
    instantiateInits (fun _ => some (.ok ())) = .ok ["_start", "wapc_init"] ∧
    instantiateInits (fun n => if n = "wapc_init" then some (.error "trap") else none) =
      .error "could not initialize instance: trap" := by
  constructor
  · have h := (C7_init_functions_once_in_order (fun _ => some (.ok ()))).1
      (fun e hcontra => by simpa using hcontra)
      (fun e hcontra => by simpa using hcontra)
    rw [h]
    rfl
  · exact (C7_init_functions_once_in_order
      (fun n => if n = "wapc_init" then some (.error "trap") else none)).2.2 "trap"
      (fun x hcontra => by simpa using hcontra) rfl

/-- Characterization of the `fd_write` iovec loop: when every pair and
every referenced byte range is inside memory, the loop reads exactly `n`
`(base, len)` pairs starting at `off`, produces the chunk of each pair in
order, and accumulates the lengths into a 32-bit total. -/
theorem fdWriteLoop_spec (mem : Bytes) :
    ∀ (n off : Nat),
      (∀ k, k < n → off + 8 * k + 8 ≤ mem.length ∧
        u32At mem (off + 8 * k) + u32At mem (off + 8 * k + 4) ≤ mem.length) →
      fdWriteLoop mem off n =
        .ok ((List.range n).map (fun k =>
              (mem.drop (u32At mem (off + 8 * k))).take (u32At mem (off + 8 * k + 4))),
             ((List.range n).map (fun k => u32At mem (off + 8 * k + 4))).sum %
               4294967296) := by
  intro n
  induction n with
  | zero =>
    intro off h
    simp [fdWriteLoop]
  | succ n ih =>
    intro off h
    have h0 := h 0 (by omega)
    simp only [Nat.mul_zero, Nat.add_zero] at h0
    have hb : off + 4 ≤ mem.length := by omega
    have hl : off + 4 + 4 ≤ mem.length := by omega
    have hshift : ∀ k : Nat, off + 8 * (k + 1) = off + 8 + 8 * k := by
      intro k
      ring
    have ihh := ih (off + 8) (fun k hk => by
      have hk1 := h (k + 1) (by omega)
      rw [hshift k] at hk1
      exact hk1)
    simp only [fdWriteLoop, readU32LE_of_inbounds mem off hb,
      readU32LE_of_inbounds mem (off + 4) hl,
      memRead_of_inbounds mem (u32At mem off) (u32At mem (off + 4)) h0.2,
      expectSome, bind, Except.bind, ihh]
    simp only [List.range_succ_eq_map, List.map_cons, List.map_map, List.sum_cons,
      Nat.mul_zero, Nat.add_zero]
    have hmapC : List.map
        ((fun k => (mem.drop (u32At mem (off + 8 * k))).take (u32At mem (off + 8 * k + 4)))
          ∘ Nat.succ) (List.range n) =
        List.map (fun k =>
          (mem.drop (u32At mem (off + 8 + 8 * k))).take (u32At mem (off + 8 + 8 * k + 4)))
          (List.range n) :=
      List.map_congr_left (fun k hk => by
        simp only [Function.comp]
        rw [show Nat.succ k = k + 1 from rfl, hshift k])
    have hmapL : List.map ((fun k => u32At mem (off + 8 * k + 4)) ∘ Nat.succ)
        (List.range n) =
        List.map (fun k => u32At mem (off + 8 + 8 * k + 4)) (List.range n) :=
      List.map_congr_left (fun k hk => by
        simp only [Function.comp]
        rw [show Nat.succ k = k + 1 from rfl, hshift k])
    rw [hmapC, hmapL]
    congr 2
    omega

/-- Claim C8 (confirmed).  `fd_write(fd, iovs_ptr, iovs_len, written_ptr)`:
when `fd ≠ 1` or no stdout writer is configured it returns 0, invokes no
writer and leaves memory untouched; otherwise (with all accesses in range)
it processes exactly `iovs_len` little-endian `(base, len)` pairs starting
at `iovs_ptr`, hands the writer the `len` bytes at `base` once per pair in
order, stores the 32-bit sum of the lengths little-endian at
`written_ptr`, and returns that total. -/
theorem C8_fd_write_contract (writer : Bool) (mem : Bytes) (fd : Int)
    (iovsPtr iovsLen writtenPtr : Nat) :
    (fd ≠ 1 → fdWrite writer mem fd iovsPtr iovsLen writtenPtr = .ok (mem, [], 0)) ∧
    (writer = false → fdWrite writer mem fd iovsPtr iovsLen writtenPtr = .ok (mem, [], 0)) ∧
    (writer = true → fd = 1 → iovsPtr ≤ mem.length →
      (∀ k, k < iovsLen → iovsPtr + 8 * k + 8 ≤ mem.length ∧
        iovBase mem iovsPtr k + iovLen mem iovsPtr k ≤ mem.length) →
      writtenPtr + 4 ≤ mem.length →
      fdWrite writer mem fd iovsPtr iovsLen writtenPtr =
        .ok (mem.take writtenPtr ++ u32le (iovTotal mem iovsPtr iovsLen) ++
               mem.drop (writtenPtr + 4),
             iovChunks mem iovsPtr iovsLen,
             iovTotal mem iovsPtr iovsLen)) := by
  refine ⟨?_, ?_, ?_⟩
  · intro hfd
    unfold fdWrite
    rw [if_pos hfd]
  · intro hw
    unfold fdWrite
    subst hw
    by_cases hfd : fd ≠ 1
    · rw [if_pos hfd]
    · rw [if_neg hfd]
      rfl
  · intro hw hfd hp hbounds hwp
    have hloop := fdWriteLoop_spec mem iovsLen iovsPtr (fun k hk => by
      have := hbounds k hk
      exact ⟨this.1, this.2⟩)
    have hlen4 : (u32le (iovTotal mem iovsPtr iovsLen)).length = 4 := rfl
    have hwrite := memWrite_of_inbounds mem writtenPtr
      (u32le (iovTotal mem iovsPtr iovsLen)) (by rw [hlen4]; exact hwp)
    unfold fdWrite
    rw [if_neg (by simp [hfd]), if_neg (by simp [hw]), if_neg (by omega)]
    simp only [hloop, bind, Except.bind, expectSome]
    rw [show iovChunks mem iovsPtr iovsLen =
      (List.range iovsLen).map (fun k =>
        (mem.drop (u32At mem (iovsPtr + 8 * k))).take (u32At mem (iovsPtr + 8 * k + 4)))
      from rfl]
    rw [show iovTotal mem iovsPtr iovsLen =
      ((List.range iovsLen).map (fun k => u32At mem (iovsPtr + 8 * k + 4))).sum %
        4294967296 from rfl] at hwrite ⊢
    rw [hwrite]
    rfl

/-- Witness for `C8_fd_write_contract`: one iovec pair `(base 8, len 2)`
whose bytes are `[65, 66]`; the writer receives exactly that chunk, the
total 2 is stored little-endian at offset 12, and 2 is returned; with
`fd = 3` nothing happens. -/
theorem C8_fd_write_contract_witness :
    fdWrite true [8, 0, 0, 0, 2, 0, 0, 0, 65, 66, 0, 0, 0, 0, 0, 0] 1 0 1 12 =
      .ok ([8, 0, 0, 0, 2, 0, 0, 0, 65, 66, 0, 0, 2, 0, 0, 0], [[65, 66]], 2) ∧
    fdWrite true [8, 0, 0, 0, 2, 0, 0, 0, 65, 66, 0, 0, 0, 0, 0, 0] 3 0 1 12 =
      .ok ([8, 0, 0, 0, 2, 0, 0, 0, 65, 66, 0, 0, 0, 0, 0, 0], [], 0) := by
  constructor
  · have h := (C8_fd_write_contract true
      [8, 0, 0, 0, 2, 0, 0, 0, 65, 66, 0, 0, 0, 0, 0, 0] 1 0 1 12).2.2
      rfl rfl (by decide)
      (by
        intro k hk
        interval_cases k
        exact ⟨by decide, by decide⟩)
      (by decide)
    rw [h]
    rfl
  · have h := (C8_fd_write_contract true
      [8, 0, 0, 0, 2, 0, 0, 0, 65, 66, 0, 0, 0, 0, 0, 0] 3 0 1 12).1
      (by decide)
    rw [h]

/-- Claim C9 (counterexample).  The claim says `args_get`,
`environ_sizes_get` and `environ_get` write zeros at the memory locations
where counts/sizes are expected.  In the wasmer adapter's WASI shim only
`args_sizes_get` writes; the other three return 0 without touching memory:
on a memory of 7s, every byte is still 7 afterwards. -/
theorem C9_counterexample_environ_stubs_write_nothing :
    wasiEnvironSizesGet [7, 7, 7, 7, 7, 7, 7, 7] 0 4 = ([7, 7, 7, 7, 7, 7, 7, 7], 0) ∧
    wasiEnvironGet [7, 7, 7, 7, 7, 7, 7, 7] 0 4 = ([7, 7, 7, 7, 7, 7, 7, 7], 0) ∧
    wasiArgsGet [7, 7, 7, 7, 7, 7, 7, 7] 0 4 = ([7, 7, 7, 7, 7, 7, 7, 7], 0) := by
  exact ⟨rfl, rfl, rfl⟩

/-- Claim C9 (amended).  `fd_close`, `fd_fdstat_get`, `fd_prestat_get`,
`fd_prestat_dir_name`, `fd_read` and `fd_seek` return errno 8 without
touching memory; `path_open` returns errno 28; `args_sizes_get` writes a
little-endian u32 zero at each of its two locations and returns 0;
`args_get`, `environ_sizes_get` and `environ_get` return 0 *without
writing to memory*; `clock_time_get` writes the wall-clock nanoseconds as
a little-endian u64 at `timestamp_ptr` and returns 0. -/
theorem C9_wasi_stub_contract (mem : Bytes) (a b c : Nat) (nowNanos : Nat)
    (args : List Nat) (offset : Int)
    (ha : a + 4 ≤ mem.length) (hb : b + 4 ≤ mem.length)
    (hc : c + 8 ≤ mem.length) :
    wasiFdClose mem a = (mem, 8) ∧
    wasiFdFdstatGet mem a b = (mem, 8) ∧
    wasiFdPrestatGet mem a b = (mem, 8) ∧
    wasiFdPrestatDirName mem a b c = (mem, 8) ∧
    wasiFdRead mem a b c a = (mem, 8) ∧
    wasiFdSeek mem a offset b c = (mem, 8) ∧
    wasiPathOpen mem args = (mem, 28) ∧
    wasiArgsGet mem a b = (mem, 0) ∧
    wasiEnvironSizesGet mem a b = (mem, 0) ∧
    wasiEnvironGet mem a b = (mem, 0) ∧
    wasiArgsSizesGet mem a b =
      .ok (memWriteDrop (memWriteDrop mem a (u32le 0)) b (u32le 0), 0) ∧
    wasiClockTimeGet nowNanos mem a b c =
      .ok (memWriteDrop mem c (u64le nowNanos), 0) := by
  have hzl : (u32le 0).length = 4 := rfl
  have hw1 := memWrite_of_inbounds mem a (u32le 0) (by rw [hzl]; exact ha)
  have hw2 := memWrite_of_inbounds (mem.take a ++ u32le 0 ++ mem.drop (a + (u32le 0).length))
    b (u32le 0) (by
      simp only [List.length_append, List.length_take, List.length_drop, hzl]
      omega)
  have h8l : (u64le nowNanos).length = 8 := rfl
  have hw3 := memWrite_of_inbounds mem c (u64le nowNanos) (by rw [h8l]; exact hc)
  refine ⟨rfl, rfl, rfl, rfl, rfl, rfl, rfl, rfl, rfl, rfl, ?_, ?_⟩
  · simp only [wasiArgsSizesGet, memWriteDrop, hw1, Option.getD_some, hw2,
      expectSome, bind, Except.bind]
  · simp only [wasiClockTimeGet, memWriteDrop, hw3, Option.getD_some,
      expectSome, bind, Except.bind]

/-- Witness for `C9_wasi_stub_contract` on a 12-byte memory. -/
theorem C9_wasi_stub_contract_witness :
    wasiArgsSizesGet [7, 7, 7, 7, 7, 7, 7, 7, 7, 7, 7, 7] 0 4 =
      .ok ([0, 0, 0, 0, 0, 0, 0, 0, 7, 7, 7, 7], 0) ∧
    wasiClockTimeGet 3 [7, 7, 7, 7, 7, 7, 7, 7, 7, 7, 7, 7] 0 4 4 =
      .ok ([7, 7, 7, 7, 3, 0, 0, 0, 0, 0, 0, 0], 0) ∧
    wasiFdClose [7, 7, 7, 7, 7, 7, 7, 7, 7, 7, 7, 7] 0 =
      ([7, 7, 7, 7, 7, 7, 7, 7, 7, 7, 7, 7], 8) := by
  have h := C9_wasi_stub_contract [7, 7, 7, 7, 7, 7, 7, 7, 7, 7, 7, 7] 0 4 4 3 [] 0
    (by decide) (by decide) (by decide)
  refine ⟨?_, ?_, h.1⟩
  · rw [(h.2.2.2.2.2.2.2.2.2.2).1]
    rfl
  · rw [(h.2.2.2.2.2.2.2.2.2.2).2]
    rfl

/-- Claim C10 (confirmed).  `Pool.Return` offers an arbitrary instance to
the FIFO: whenever a slot is free it succeeds and appends, with no check
that the instance came from `Get`, belongs to the pool, is open, or is not
already queued.  Returning the same instance twice (possible whenever two
slots are free, e.g. while another checked-out instance is still held)
leaves the FIFO holding two references to it, so the FIFO count plus the
checked-out count exceeds the pool size. -/
theorem C10_pool_return_unchecked (cap : Nat) (fifo : List Nat) (inst : Nat)
    (hfree : fifo.length < cap) :
    poolReturn cap fifo inst = .ok (fifo ++ [inst]) ∧
    (fifo.length + 2 ≤ cap →
      poolReturn cap (fifo ++ [inst]) inst = .ok (fifo ++ [inst] ++ [inst]) ∧
      (fifo ++ [inst] ++ [inst]).count inst = fifo.count inst + 2) := by
  constructor
  · unfold poolReturn
    rw [if_pos hfree]
  · intro h2
    constructor
    · unfold poolReturn
      rw [if_pos (by simp only [List.length_append, List.length_cons, List.length_nil]; omega)]
    · simp [List.count_append]

/-- Witness for `C10_pool_return_unchecked`: a pool of capacity 2 with an
empty FIFO (both instances checked out) accepts instance 5 twice; the FIFO
then holds it twice. -/
theorem C10_pool_return_unchecked_witness :
    poolReturn 2 [] 5 = .ok [5] ∧
    poolReturn 2 [5] 5 = .ok [5, 5] ∧
    ([] ++ [5] ++ [5]).count 5 = ([] : List Nat).count 5 + 2 := by
  have h := C10_pool_return_unchecked 2 [] 5 (by decide)
  have h2 := h.2 (by decide)
  exact ⟨h.1, h2.1, h2.2⟩

end Wapc
